import Mathlib

/-!
Verification development for the `image-processor` CLI (`src/index.ts`).

The program is embedded shallowly: the conversion pipeline of `convertImage` /
`convertDirectory` becomes a deterministic interpreter over an explicit run
state (the process-wide `overwriteAll` flag, a model of the file system, the
stream of interactive prompt answers, and the stream of results of the external
`cjxl` subprocess).  Opaque capabilities (the sharp codec, the external `cjxl`
encoder) are modelled by the data they deterministically produce; their
*control* behavior (exit codes, launch failures) is driven by explicit oracles
so that every error path of the source is represented.
-/

/-! ## Character/string helpers (ASCII semantics of the JS string methods used) -/

/-- ASCII lower-casing of one character, as `String.prototype.toLowerCase`
behaves on the ASCII inputs this CLI compares against. -/
def asciiLower (c : Char) : Char :=
  if 65 ≤ c.toNat ∧ c.toNat ≤ 90 then Char.ofNat (c.toNat + 32) else c

def lowerChars (l : List Char) : List Char := l.map asciiLower

/-- The whitespace class `String.prototype.trim` strips (the members occurring
in terminal input). -/
def isJsSpace (c : Char) : Bool :=
  c = ' ' || c = '\t' || c = '\n' || c = '\r'

def trimChars (l : List Char) : List Char :=
  ((l.dropWhile isJsSpace).reverse.dropWhile isJsSpace).reverse

/-- `answer.trim().toLowerCase()` (source line 50). -/
def normalizeAnswer (s : String) : String :=
  String.mk (lowerChars (trimChars s.data))

def decValue (l : List Char) : Nat :=
  l.foldl (fun acc c => 10 * acc + (c.toNat - 48)) 0

/-- `parseInt(s, 10)`: optional sign then a maximal digit prefix; `none` models
`NaN` (no leading digit). -/
def jsParseInt (s : String) : Option Int :=
  let t := trimChars s.data
  let core := fun (l : List Char) (sign : Int) =>
    let ds := l.takeWhile Char.isDigit
    if ds.isEmpty then none else some (sign * (decValue ds : Int))
  match t with
  | '-' :: rest => core rest (-1)
  | '+' :: rest => core rest 1
  | l => core l 1

/-- A JS number as the CLI manipulates it: `undefined`, `NaN`, or an integer. -/
inductive JsNum
  | undef
  | nan
  | int (n : Int)
deriving DecidableEq, Repr

/-- JS truthiness of a number: `undefined`, `NaN` and `0` are falsy. -/
def JsNum.truthy : JsNum → Bool
  | .undef => false
  | .nan => false
  | .int n => n != 0

/-- `options.width ? parseInt(options.width, 10) : undefined`
(source lines 237-238); a JS string is truthy exactly when nonempty. -/
def parseDimOption : Option String → JsNum
  | none => .undef
  | some s =>
      if s = "" then .undef
      else
        match jsParseInt s with
        | none => .nan
        | some n => .int n

/-! ## Path helpers (the `node:path` functions the source uses, POSIX form) -/

/-- The last path component (characters after the last slash). -/
def lastComponent (l : List Char) : List Char :=
  l.foldl (fun acc c => if c = '/' then [] else acc ++ [c]) []

/-- `path.extname`: the dotted extension of the last component; empty for
dotless names and for a leading-dot-only name. -/
def pathExtname (s : String) : String :=
  let comp := lastComponent s.data
  let revTail := comp.reverse.takeWhile (fun c => c ≠ '.')
  if revTail.length = comp.length then ""
  else if revTail.length + 1 = comp.length then ""
  else String.mk ('.' :: revTail.reverse)

/-- `path.basename(p, ext)`: last component with `ext` stripped when it is a
proper suffix. -/
def pathBasename (s ext : String) : String :=
  let comp := lastComponent s.data
  if !ext.data.isEmpty && ext.data.isSuffixOf comp && ext.data.length < comp.length then
    String.mk (comp.take (comp.length - ext.data.length))
  else String.mk comp

/-- `path.dirname` (for the relative, slash-separated paths this model uses). -/
def pathDirname (s : String) : String :=
  if s.data.contains '/' then
    String.mk (((s.data.reverse.dropWhile (fun c => c ≠ '/')).drop 1).reverse)
  else "."

/-- `path.join` on two segments (no normalization; the model only joins a
directory with a bare entry name). -/
def pathJoin (a b : String) : String := a ++ "/" ++ b

/-! ## Format registry (source lines 17-19) and the directory allow-list -/

/-- Formats sharp encodes directly (source line 17). -/
def SHARP_FORMATS : List String := ["jpg", "png", "webp", "avif"]

/-- All supported target formats, jpegxl last (source line 19). -/
def SUPPORTED_FORMATS : List String := SHARP_FORMATS ++ ["jpegxl"]

/-- The image-source extension allow-list of `convertDirectory`
(source line 193). -/
def imageSrcExts : List String := [".jpg", ".jpeg", ".png", ".webp", ".avif"]

/-! ## The overwrite prompt (source lines 47-58) -/

inductive Choice
  | yes
  | no
  | all
  | quit
deriving DecidableEq, Repr

/-- The answer classification of `promptOverwrite` (source lines 50-55):
trim, lower-case, then the four recognized answer pairs; anything else is
`no`. -/
def promptOverwriteChoice (answer : String) : Choice :=
  let response := normalizeAnswer answer
  if response = "y" ∨ response = "yes" then .yes
  else if response = "n" ∨ response = "no" then .no
  else if response = "a" ∨ response = "all" then .all
  else if response = "q" ∨ response = "quit" then .quit
  else .no

/-! ## File system and capability models -/

/-- Content of a file in the model: either pre-existing raw content, the
output of a sharp `.toFormat(fmt).toFile` pipeline (recording the source path
and the resize invocation, if any), or the file the external `cjxl` process
produces from an intermediate. -/
inductive FileData
  | raw (content : String)
  | sharpOut (src fmt : String) (resize : Option (JsNum × JsNum))
  | cjxlOut (tmp : String)
deriving DecidableEq, Repr

abbrev FsModel := List (String × FileData)

def fsExists : FsModel → String → Bool
  | [], _ => false
  | e :: fs, p => if e.1 = p then true else fsExists fs p

def fsLookup : FsModel → String → Option FileData
  | [], _ => none
  | e :: fs, p => if e.1 = p then some e.2 else fsLookup fs p

def fsDelete : FsModel → String → FsModel
  | [], _ => []
  | e :: fs, p => if e.1 = p then fsDelete fs p else e :: fsDelete fs p

def fsWrite (fs : FsModel) (p : String) (d : FileData) : FsModel :=
  (p, d) :: fsDelete fs p

/-- One result of the spawned `cjxl` subprocess: the `error` event (launch
failure) or the `exit` event with a code (source lines 125-127). -/
inductive CjxlRes
  | launchErr (msg : String)
  | exited (code : Int)
deriving DecidableEq, Repr

/-- Pop the next external-process result; an exhausted oracle is read as a
clean exit (the all-successes environment). -/
def cjxlNext : List CjxlRes → CjxlRes × List CjxlRes
  | [] => (.exited 0, [])
  | r :: cs => (r, cs)

/-- The mutable run state: the process-wide `overwriteAll` flag
(source line 27), the file system, the pending interactive answers, and the
pending external-process results. -/
structure RunState where
  overwriteAll : Bool
  fs : FsModel
  answers : List String
  cjxl : List CjxlRes
deriving DecidableEq, Repr

/-- Run-start state: `let overwriteAll = false` (source line 27); the file
system and the two input streams are the run's environment. -/
def initialRunState (fs : FsModel) (answers : List String) (cjxl : List CjxlRes) : RunState :=
  ⟨false, fs, answers, cjxl⟩

/-! ## Observable events of a run -/

inductive Event
  | mkdirp (dir : String)
  | prompt (path : String) (choice : Choice)
  | sharpDecode (path : String)
  | writeOut (path : String) (data : FileData)
  | spawnCjxl (tmp fin : String)
  | unlink (path : String)
  | logCreated (path : String)
  | logConverted (src dst : String)
  | logError (msg : String)
  | logAborted
  | fileStart (path : String)
deriving DecidableEq, Repr

def isPromptEvent : Event → Bool
  | .prompt _ _ => true
  | _ => false

def isDecodeEvent : Event → Bool
  | .sharpDecode _ => true
  | _ => false

def promptCount : List Event → Nat
  | [] => 0
  | e :: tr => (if isPromptEvent e then 1 else 0) + promptCount tr

def decodeCount : List Event → Nat
  | [] => 0
  | e :: tr => (if isDecodeEvent e then 1 else 0) + decodeCount tr

/-- Whether some prompt in the trace was answered `all`. -/
def hasAllChoice : List Event → Bool
  | [] => false
  | .prompt _ c :: tr => (c == Choice.all) || hasAllChoice tr
  | _ :: tr => hasAllChoice tr

/-- The source files a trace processes, in order. -/
def fileStarts : List Event → List String
  | [] => []
  | .fileStart p :: tr => p :: fileStarts tr
  | _ :: tr => fileStarts tr

/-! ## The conversion engine (`convertImage`, source lines 71-169) -/

/-- The options record `convertImage` receives (source lines 74-79) after the
action has parsed the dimension strings. -/
structure Options where
  outputDir : Option String
  verbose : Bool
  width : JsNum
  height : JsNum
deriving DecidableEq, Repr

/-- `outputDir || inputDir` (source line 87). -/
def targetDirOf (filePath : String) (opts : Options) : String :=
  opts.outputDir.getD (pathDirname filePath)

/-- `path.join(targetDir, baseName)` (source lines 82-89). -/
def outputBaseOf (filePath : String) (opts : Options) : String :=
  pathJoin (targetDirOf filePath opts) (pathBasename filePath (pathExtname filePath))

/-- The temporary intermediate path of the jpegxl branch (source line 93). -/
def tempPathOf (filePath : String) (opts : Options) : String :=
  outputBaseOf filePath opts ++ ".temp.png"

/-- The final jpegxl output path (source line 94). -/
def jxlPathOf (filePath : String) (opts : Options) : String :=
  outputBaseOf filePath opts ++ ".jxl"

/-- The output path whose existence the overwrite check of a format consults:
the final `.jxl` for jpegxl, `outputBase.format` otherwise
(source lines 94, 143). -/
def stepOutputPath (filePath : String) (opts : Options) (format : String) : String :=
  if format = "jpegxl" then jxlPathOf filePath opts
  else outputBaseOf filePath opts ++ "." ++ format

/-- The resize argument of the sharp pipeline: `if (width || height)
sharpInstance.resize(width, height)` (source lines 114-116, 160-162). -/
def resizeArgOf (opts : Options) : Option (JsNum × JsNum) :=
  if opts.width.truthy || opts.height.truthy then some (opts.width, opts.height) else none

/-- What the sharp pipeline writes for one target format. -/
def sharpDataOf (filePath : String) (opts : Options) (fmt : String) : FileData :=
  .sharpOut filePath fmt (resizeArgOf opts)

/-- Outcome of the overwrite gate guarding one write. -/
inductive GateOut
  | allowed (st : RunState) (tr : List Event)
  | denied (st : RunState) (tr : List Event)
  | quitRun (st : RunState) (tr : List Event)
  | waiting (tr : List Event)
deriving DecidableEq, Repr

/-- The overwrite gate, duplicated verbatim in the source for the two branches
(lines 100-109 and 147-156): prompt only when the output path exists and
`overwriteAll` is not set; `no` skips the pair, `quit` aborts the process with
status 0, `all` sets the process-wide flag.  When the answer stream is empty
the prompt would block forever (`waiting`). -/
def checkOverwrite (outPath : String) (st : RunState) : GateOut :=
  if fsExists st.fs outPath && !st.overwriteAll then
    match st.answers with
    | [] => .waiting []
    | ans :: rest =>
      let choice := promptOverwriteChoice ans
      let st' : RunState := { st with answers := rest }
      match choice with
      | .no => .denied st' [Event.prompt outPath choice]
      | .quit => .quitRun st' [Event.prompt outPath choice, Event.logAborted]
      | .all => .allowed { st' with overwriteAll := true } [Event.prompt outPath choice]
      | .yes => .allowed st' [Event.prompt outPath choice]
  else .allowed st []

/-- Result of processing one target format of one source file. -/
inductive StepOut
  | next (st : RunState) (tr : List Event)
  | blocked (tr : List Event)
  | abort (st : RunState) (tr : List Event)
deriving DecidableEq, Repr

/-- One iteration of the per-format loop of `convertImage`
(source lines 86-168): mkdir, then either the jpegxl branch (overwrite gate on
the final `.jxl`, sharp-encode of the intermediate PNG, spawn `cjxl`, unlink
the intermediate only on exit code 0) or the sharp branch (overwrite gate on
the output path, sharp-encode, write).  Per-format failures are caught and the
loop proceeds (`next`). -/
def convertFormatStep (filePath : String) (opts : Options) (format : String)
    (st : RunState) : StepOut :=
  let targetDir := targetDirOf filePath opts
  let outputBase := outputBaseOf filePath opts
  let pre := [Event.mkdirp targetDir]
  if format = "jpegxl" then
    let intermediatePng := outputBase ++ ".temp.png"
    let finalJxl := outputBase ++ ".jxl"
    match checkOverwrite finalJxl st with
    | .denied st' tr => .next st' (pre ++ tr)
    | .quitRun st' tr => .abort st' (pre ++ tr)
    | .waiting tr => .blocked (pre ++ tr)
    | .allowed st' tr =>
      let tmpData := sharpDataOf filePath opts "png"
      let fs1 := fsWrite st'.fs intermediatePng tmpData
      let tr1 := pre ++ tr ++
        [Event.sharpDecode filePath, Event.writeOut intermediatePng tmpData,
         Event.spawnCjxl intermediatePng finalJxl]
      let rc := cjxlNext st'.cjxl
      let st2 : RunState := { st' with cjxl := rc.2 }
      match rc.1 with
      | .exited c =>
        if c = 0 then
          .next { st2 with fs := fsDelete (fsWrite fs1 finalJxl (.cjxlOut intermediatePng)) intermediatePng }
            (tr1 ++ [Event.unlink intermediatePng, Event.logCreated finalJxl])
        else
          .next { st2 with fs := fs1 }
            (tr1 ++ [Event.logError ("Failed to convert to jpegxl: cjxl exited with code " ++ toString c)])
      | .launchErr msg =>
        .next { st2 with fs := fs1 }
          (tr1 ++ [Event.logError ("Failed to convert to jpegxl: cjxl error: " ++ msg)])
  else
    let outputPath := outputBase ++ "." ++ format
    match checkOverwrite outputPath st with
    | .denied st' tr => .next st' (pre ++ tr)
    | .quitRun st' tr => .abort st' (pre ++ tr)
    | .waiting tr => .blocked (pre ++ tr)
    | .allowed st' tr =>
      let data := sharpDataOf filePath opts format
      .next { st' with fs := fsWrite st'.fs outputPath data }
        (pre ++ tr ++
          [Event.sharpDecode filePath, Event.writeOut outputPath data,
           Event.logConverted filePath outputPath])

/-- Result of a (partial or complete) run. `exited = some c` means
`process.exit(c)` was called; `blocked` means the run is suspended forever on
an unanswered prompt. -/
structure RunOut where
  st : RunState
  trace : List Event
  exited : Option Nat
  blocked : Bool
deriving DecidableEq, Repr

/-- The `for (const format of formats)` loop of `convertImage`
(source line 86). -/
def convertLoop (filePath : String) (opts : Options) :
    List String → RunState → RunOut
  | [], st => ⟨st, [], none, false⟩
  | format :: rest, st =>
    match convertFormatStep filePath opts format st with
    | .next st' tr =>
      let r := convertLoop filePath opts rest st'
      ⟨r.st, tr ++ r.trace, r.exited, r.blocked⟩
    | .blocked tr => ⟨st, tr, none, true⟩
    | .abort st' tr => ⟨st', tr, some 0, false⟩

/-- `convertImage` (source lines 71-169).  The `fileStart` event is trace
instrumentation marking the entry into one source file's processing. -/
def convertImage (filePath : String) (formats : List String) (opts : Options)
    (st : RunState) : RunOut :=
  let r := convertLoop filePath opts formats st
  ⟨r.st, Event.fileStart filePath :: r.trace, r.exited, r.blocked⟩

/-- The sequential `for (const file of imageFiles)` loop of `convertDirectory`
(source lines 194-196): one file fully completed before the next begins; a
process exit or a blocked prompt stops the batch. -/
def dirLoop (formats : List String) (opts : Options) :
    List String → RunState → RunOut
  | [], st => ⟨st, [], none, false⟩
  | file :: rest, st =>
    let r := convertImage file formats opts st
    if r.exited.isNone && !r.blocked then
      let r2 := dirLoop formats opts rest r.st
      ⟨r2.st, r.trace ++ r2.trace, r2.exited, r2.blocked⟩
    else r

/-- `convertDirectory` (source lines 182-197): one non-recursive listing of the
directory entries, filtered by the lower-cased extension allow-list, then the
strictly sequential per-file loop. -/
def convertDirectory (dirPath : String) (entries : List String)
    (formats : List String) (opts : Options) (st : RunState) : RunOut :=
  let imageFiles := entries.filter
    (fun f => imageSrcExts.contains (String.mk (lowerChars (pathExtname f).data)))
  dirLoop formats opts (imageFiles.map (fun file => pathJoin dirPath file)) st

/-- The trace a strictly sequential schedule produces: each file's complete
trace, in order, the run state threaded from one file to the next. -/
def seqFileTraces (formats : List String) (opts : Options) :
    List String → RunState → List Event
  | [], _ => []
  | file :: rest, st =>
    (convertImage file formats opts st).trace ++
      seqFileTraces formats opts rest (convertImage file formats opts st).st

/-! ## The CLI action (source lines 213-267) -/

/-- Outcome of one CLI invocation on a file source.  `invalidFormats` is the
pre-I/O abort `console.error + process.exit(1)` of the validation step
(source lines 229-233): it happens before any stat, read or write. -/
inductive ActionOutcome
  | invalidFormats (invalid : List String)
  | completed (r : RunOut)
deriving DecidableEq, Repr

/-- The action body for a file source (source lines 213-249), assuming the
source path stats as a regular file: `all` expands to `SUPPORTED_FORMATS`
(skipping validation entirely); otherwise unknown tokens abort with status 1;
then the dimension strings are parsed and `convertImage` runs from the initial
(overwriteAll = false) state. -/
def cliRunFile (source : String) (requestedFormats : List String)
    (out : Option String) (verbose : Bool) (widthOpt heightOpt : Option String)
    (fs : FsModel) (answers : List String) (cjxl : List CjxlRes) : ActionOutcome :=
  if requestedFormats.contains "all" then
    .completed (convertImage source SUPPORTED_FORMATS
      ⟨out, verbose, parseDimOption widthOpt, parseDimOption heightOpt⟩
      (initialRunState fs answers cjxl))
  else
    let invalid := requestedFormats.filter (fun f => !SUPPORTED_FORMATS.contains f)
    if invalid.isEmpty then
      .completed (convertImage source requestedFormats
        ⟨out, verbose, parseDimOption widthOpt, parseDimOption heightOpt⟩
        (initialRunState fs answers cjxl))
    else .invalidFormats invalid

/-- The process exit status an outcome produces: 1 for the validation abort,
the `process.exit` code when one was called, 0 on normal completion, none when
the run blocks forever on a prompt. -/
def ActionOutcome.exitCode : ActionOutcome → Option Nat
  | .invalidFormats _ => some 1
  | .completed r =>
    match r.exited with
    | some c => some c
    | none => if r.blocked then none else some 0

def ActionOutcome.isConfigError : ActionOutcome → Bool
  | .invalidFormats _ => true
  | .completed _ => false

/-- The event trace of an outcome (empty when validation aborted the run
before any I/O). -/
def ActionOutcome.runTrace : ActionOutcome → List Event
  | .invalidFormats _ => []
  | .completed r => r.trace

/-! ## The resize capability (dimension model of sharp's `resize`) -/

/-- `Math.round(num / den)` for nonnegative operands (round half up). -/
def jsRound (num den : Nat) : Nat := (2 * num + den) / (2 * den)

/-- Dimension behavior of the sharp resize capability: one given dimension
derives the other preserving aspect ratio; `withoutEnlargement` (sharp's
option, default `false`) clamps a target exceeding the source to the source
size. -/
def sharpResizeDims (w h : Option Nat) (withoutEnlargement : Bool)
    (srcW srcH : Nat) : Nat × Nat :=
  match w, h with
  | none, none => (srcW, srcH)
  | some W, none =>
    let W' := if withoutEnlargement ∧ srcW < W then srcW else W
    (W', jsRound (srcH * W') srcW)
  | none, some H =>
    let H' := if withoutEnlargement ∧ srcH < H then srcH else H
    (jsRound (srcW * H') srcH, H')
  | some W, some H =>
    let W' := if withoutEnlargement ∧ srcW < W then srcW else W
    let H' := if withoutEnlargement ∧ srcH < H then srcH else H
    (W', H')

def jsNumToDim : JsNum → Option Nat
  | .int n => if 0 < n then some n.toNat else none
  | _ => none

/-- The output dimensions the program's resize call produces: the source calls
`sharpInstance.resize(width, height)` with no options object
(lines 115, 161), so `withoutEnlargement` keeps sharp's default `false`; when
neither dimension is truthy the resize call is skipped entirely. -/
def convertResizeDims (width height : JsNum) (srcW srcH : Nat) : Nat × Nat :=
  if width.truthy || height.truthy then
    sharpResizeDims (jsNumToDim width) (jsNumToDim height) false srcW srcH
  else (srcW, srcH)

/-- The option flags the program declares on its commander instance
(source lines 206-212).  Commander rejects any other `--` flag as an unknown
option. -/
def programOptionFlags : List String :=
  ["-f, --formats <formats...>", "-o, --out <dir>", "--verbose",
   "-w, --width <number>", "-h, --height <number>"]

/-- Whether `pat` occurs as a contiguous run inside `l`. -/
def charsContain (pat : List Char) : List Char → Bool
  | [] => pat.isEmpty
  | c :: rest => pat.isPrefixOf (c :: rest) || charsContain pat rest

/-! ## Lemmas: trace observers -/

theorem promptCount_append (a b : List Event) :
    promptCount (a ++ b) = promptCount a + promptCount b := by
  induction a with
  | nil => simp [promptCount]
  | cons e a ih => simp [promptCount, ih, Nat.add_assoc]

theorem decodeCount_append (a b : List Event) :
    decodeCount (a ++ b) = decodeCount a + decodeCount b := by
  induction a with
  | nil => simp [decodeCount]
  | cons e a ih => simp [decodeCount, ih, Nat.add_assoc]

theorem hasAllChoice_append (a b : List Event) :
    hasAllChoice (a ++ b) = (hasAllChoice a || hasAllChoice b) := by
  induction a with
  | nil => simp [hasAllChoice]
  | cons e a ih => cases e <;> simp [hasAllChoice, ih, Bool.or_assoc]

theorem fileStarts_append (a b : List Event) :
    fileStarts (a ++ b) = fileStarts a ++ fileStarts b := by
  induction a with
  | nil => simp [fileStarts]
  | cons e a ih => cases e <;> simp [fileStarts, ih]

/-! ## Lemmas: file-system model -/

theorem fsExists_fsWrite_self (fs : FsModel) (p : String) (d : FileData) :
    fsExists (fsWrite fs p d) p = true := by
  simp [fsExists, fsWrite]

theorem fsLookup_fsWrite_self (fs : FsModel) (p : String) (d : FileData) :
    fsLookup (fsWrite fs p d) p = some d := by
  simp [fsLookup, fsWrite]

theorem fsExists_fsDelete_self (fs : FsModel) (p : String) :
    fsExists (fsDelete fs p) p = false := by
  induction fs with
  | nil => simp [fsExists, fsDelete]
  | cons e fs ih =>
    by_cases h : e.1 = p <;> simp [fsDelete, fsExists, h, ih]

/-! ## Lemmas: the overwrite gate -/

theorem checkOverwrite_all (p : String) (st : RunState) (h : st.overwriteAll = true) :
    checkOverwrite p st = .allowed st [] := by
  simp [checkOverwrite, h]

theorem checkOverwrite_absent (p : String) (st : RunState)
    (h : fsExists st.fs p = false) :
    checkOverwrite p st = .allowed st [] := by
  simp [checkOverwrite, h]

theorem checkOverwrite_spec (p : String) (st : RunState) :
    checkOverwrite p st = .allowed st [] ∨
    checkOverwrite p st = .waiting [] ∨
    (∃ ans rest, st.answers = ans :: rest ∧
      ((promptOverwriteChoice ans = .no ∧
          checkOverwrite p st = .denied { st with answers := rest } [Event.prompt p .no]) ∨
       (promptOverwriteChoice ans = .quit ∧
          checkOverwrite p st
            = .quitRun { st with answers := rest } [Event.prompt p .quit, Event.logAborted]) ∨
       (promptOverwriteChoice ans = .all ∧
          checkOverwrite p st
            = .allowed { st with answers := rest, overwriteAll := true } [Event.prompt p .all]) ∨
       (promptOverwriteChoice ans = .yes ∧
          checkOverwrite p st = .allowed { st with answers := rest } [Event.prompt p .yes]))) := by
  by_cases hcond : (fsExists st.fs p && !st.overwriteAll) = true
  · cases hans : st.answers with
    | nil =>
      right; left
      simp [checkOverwrite, hcond, hans]
    | cons ans rest =>
      right; right
      refine ⟨ans, rest, rfl, ?_⟩
      cases hc : promptOverwriteChoice ans with
      | yes => right; right; right; exact ⟨rfl, by simp [checkOverwrite, hcond, hans, hc]⟩
      | no => left; exact ⟨rfl, by simp [checkOverwrite, hcond, hans, hc]⟩
      | all => right; right; left; exact ⟨rfl, by simp [checkOverwrite, hcond, hans, hc]⟩
      | quit => right; left; exact ⟨rfl, by simp [checkOverwrite, hcond, hans, hc]⟩
  · left
    simp [checkOverwrite, hcond]

/-! ## Lemmas: one per-format step -/

theorem convertFormatStep_all (filePath : String) (opts : Options) (format : String)
    (st : RunState) (h : st.overwriteAll = true) :
    ∃ st' tr, convertFormatStep filePath opts format st = .next st' tr ∧
      st'.overwriteAll = true ∧
      promptCount tr = 0 ∧ decodeCount tr = 1 ∧
      hasAllChoice tr = false ∧ fileStarts tr = [] := by
  by_cases hf : format = "jpegxl"
  · rcases hr : cjxlNext st.cjxl with ⟨r, cs⟩
    cases r with
    | exited c =>
      by_cases hc : c = 0
      · simp only [convertFormatStep, hf, if_pos rfl, checkOverwrite_all _ _ h, hr, hc,
          if_pos rfl]
        exact ⟨_, _, rfl, by
          simp [h, promptCount, decodeCount, hasAllChoice, fileStarts, isPromptEvent,
            isDecodeEvent]⟩
      · simp only [convertFormatStep, hf, if_pos rfl, checkOverwrite_all _ _ h, hr,
          if_neg hc]
        exact ⟨_, _, rfl, by
          simp [h, promptCount, decodeCount, hasAllChoice, fileStarts, isPromptEvent,
            isDecodeEvent]⟩
    | launchErr msg =>
      simp only [convertFormatStep, hf, if_pos rfl, checkOverwrite_all _ _ h, hr]
      exact ⟨_, _, rfl, by
        simp [h, promptCount, decodeCount, hasAllChoice, fileStarts, isPromptEvent,
          isDecodeEvent]⟩
  · simp only [convertFormatStep, if_neg hf, checkOverwrite_all _ _ h]
    exact ⟨_, _, rfl, by
      simp [h, promptCount, decodeCount, hasAllChoice, fileStarts, isPromptEvent,
        isDecodeEvent]⟩

theorem convertFormatStep_cases (filePath : String) (opts : Options) (format : String)
    (st : RunState) :
    (∀ st' tr, convertFormatStep filePath opts format st = .next st' tr →
        st'.overwriteAll = (st.overwriteAll || hasAllChoice tr) ∧ fileStarts tr = []) ∧
    (∀ st' tr, convertFormatStep filePath opts format st = .abort st' tr →
        st'.overwriteAll = (st.overwriteAll || hasAllChoice tr) ∧ fileStarts tr = []) ∧
    (∀ tr, convertFormatStep filePath opts format st = .blocked tr →
        hasAllChoice tr = false ∧ fileStarts tr = []) := by
  by_cases hf : format = "jpegxl"
  · rcases checkOverwrite_spec (outputBaseOf filePath opts ++ ".jxl") st with hg | hg |
      ⟨ans, rest, hans, (⟨hc, hg⟩ | ⟨hc, hg⟩ | ⟨hc, hg⟩ | ⟨hc, hg⟩)⟩ <;>
    simp only [convertFormatStep, hf, ite_true, ite_false, hg] <;>
    rcases hr : cjxlNext st.cjxl with ⟨r, cs⟩ <;>
    (try simp only [hr]) <;>
    cases r <;>
    (try dsimp only) <;>
    first
      | (rename_i c
         by_cases hc0 : c = 0
         · simp only [if_pos hc0]
           refine ⟨fun st' tr heq => ?_, fun st' tr heq => ?_, fun tr heq => ?_⟩ <;>
           first
             | exact StepOut.noConfusion heq
             | (injection heq with h1 h2; subst h1; subst h2;
                simp [hasAllChoice, fileStarts, hasAllChoice_append, fileStarts_append])
             | (injection heq with h1; subst h1;
                simp [hasAllChoice, fileStarts, hasAllChoice_append, fileStarts_append])
         · simp only [if_neg hc0]
           refine ⟨fun st' tr heq => ?_, fun st' tr heq => ?_, fun tr heq => ?_⟩ <;>
           first
             | exact StepOut.noConfusion heq
             | (injection heq with h1 h2; subst h1; subst h2;
                simp [hasAllChoice, fileStarts, hasAllChoice_append, fileStarts_append])
             | (injection heq with h1; subst h1;
                simp [hasAllChoice, fileStarts, hasAllChoice_append, fileStarts_append]))
      | (refine ⟨fun st' tr heq => ?_, fun st' tr heq => ?_, fun tr heq => ?_⟩ <;>
         first
           | exact StepOut.noConfusion heq
           | (injection heq with h1 h2; subst h1; subst h2;
              simp [hasAllChoice, fileStarts, hasAllChoice_append, fileStarts_append])
           | (injection heq with h1; subst h1;
              simp [hasAllChoice, fileStarts, hasAllChoice_append, fileStarts_append]))
  · rcases checkOverwrite_spec (outputBaseOf filePath opts ++ "." ++ format) st with hg | hg |
      ⟨ans, rest, hans, (⟨hc, hg⟩ | ⟨hc, hg⟩ | ⟨hc, hg⟩ | ⟨hc, hg⟩)⟩ <;>
    simp only [convertFormatStep, if_neg hf, hg] <;>
    refine ⟨fun st' tr heq => ?_, fun st' tr heq => ?_, fun tr heq => ?_⟩ <;>
    first
      | exact StepOut.noConfusion heq
      | (injection heq with h1 h2; subst h1; subst h2;
         simp [hasAllChoice, fileStarts, hasAllChoice_append, fileStarts_append])
      | (injection heq with h1; subst h1;
         simp [hasAllChoice, fileStarts, hasAllChoice_append, fileStarts_append])

/-! ## Lemmas: the per-file and per-directory loops -/

theorem convertLoop_all (filePath : String) (opts : Options) (formats : List String)
    (st : RunState) (h : st.overwriteAll = true) :
    (convertLoop filePath opts formats st).exited = none ∧
    (convertLoop filePath opts formats st).blocked = false ∧
    (convertLoop filePath opts formats st).st.overwriteAll = true ∧
    promptCount (convertLoop filePath opts formats st).trace = 0 ∧
    decodeCount (convertLoop filePath opts formats st).trace = formats.length ∧
    fileStarts (convertLoop filePath opts formats st).trace = [] := by
  induction formats generalizing st with
  | nil => simp [convertLoop, promptCount, decodeCount, fileStarts, h]
  | cons f rest ih =>
    obtain ⟨st', tr, hstep, ho, hp, hd, _, hfs⟩ := convertFormatStep_all filePath opts f st h
    have hr := ih st' ho
    simp only [convertLoop, hstep]
    refine ⟨hr.1, hr.2.1, hr.2.2.1, ?_, ?_, ?_⟩
    · simp [promptCount_append, hp, hr.2.2.2.1]
    · simp [decodeCount_append, hd, hr.2.2.2.2.1, Nat.add_comm]
    · simp [fileStarts_append, hfs, hr.2.2.2.2.2]

theorem convertImage_all (filePath : String) (formats : List String) (opts : Options)
    (st : RunState) (h : st.overwriteAll = true) :
    (convertImage filePath formats opts st).exited = none ∧
    (convertImage filePath formats opts st).blocked = false ∧
    (convertImage filePath formats opts st).st.overwriteAll = true ∧
    promptCount (convertImage filePath formats opts st).trace = 0 ∧
    decodeCount (convertImage filePath formats opts st).trace = formats.length ∧
    fileStarts (convertImage filePath formats opts st).trace = [filePath] := by
  have hr := convertLoop_all filePath opts formats st h
  simp only [convertImage]
  refine ⟨hr.1, hr.2.1, hr.2.2.1, ?_, ?_, ?_⟩
  · simp [promptCount, isPromptEvent, hr.2.2.2.1]
  · simp [decodeCount, isDecodeEvent, hr.2.2.2.2.1]
  · simp [fileStarts, hr.2.2.2.2.2]

theorem dirLoop_all (formats : List String) (opts : Options) (files : List String)
    (st : RunState) (h : st.overwriteAll = true) :
    (dirLoop formats opts files st).exited = none ∧
    (dirLoop formats opts files st).blocked = false ∧
    (dirLoop formats opts files st).st.overwriteAll = true ∧
    promptCount (dirLoop formats opts files st).trace = 0 ∧
    fileStarts (dirLoop formats opts files st).trace = files ∧
    (dirLoop formats opts files st).trace = seqFileTraces formats opts files st := by
  induction files generalizing st with
  | nil => simp [dirLoop, seqFileTraces, promptCount, fileStarts, h]
  | cons file rest ih =>
    have hA := convertImage_all file formats opts st h
    have hi := ih (convertImage file formats opts st).st hA.2.2.1
    simp only [dirLoop, hA.1, hA.2.1, Option.isNone_none, Bool.not_false, Bool.and_self,
      ite_true]
    refine ⟨hi.1, hi.2.1, hi.2.2.1, ?_, ?_, ?_⟩
    · simp [promptCount_append, hA.2.2.2.1, hi.2.2.2.1]
    · simp [fileStarts_append, hA.2.2.2.2.2, hi.2.2.2.2.1]
    · simp only [seqFileTraces, hi.2.2.2.2.2]

theorem convertLoop_mono (filePath : String) (opts : Options) (formats : List String)
    (st : RunState) :
    (convertLoop filePath opts formats st).st.overwriteAll
      = (st.overwriteAll || hasAllChoice (convertLoop filePath opts formats st).trace) := by
  induction formats generalizing st with
  | nil => simp [convertLoop, hasAllChoice]
  | cons f rest ih =>
    have hC := convertFormatStep_cases filePath opts f st
    cases hstep : convertFormatStep filePath opts f st with
    | next st' tr =>
      have h1 := (hC.1 st' tr hstep).1
      simp only [convertLoop, hstep]
      simp [hasAllChoice_append, ih st', h1, Bool.or_assoc]
    | blocked tr =>
      have h1 := (hC.2.2 tr hstep).1
      simp [convertLoop, hstep, h1]
    | abort st' tr =>
      have h1 := (hC.2.1 st' tr hstep).1
      simp [convertLoop, hstep, h1]

theorem convertImage_mono (filePath : String) (formats : List String) (opts : Options)
    (st : RunState) :
    (convertImage filePath formats opts st).st.overwriteAll
      = (st.overwriteAll || hasAllChoice (convertImage filePath formats opts st).trace) := by
  simp only [convertImage, hasAllChoice]
  exact convertLoop_mono filePath opts formats st

theorem dirLoop_mono (formats : List String) (opts : Options) (files : List String)
    (st : RunState) :
    (dirLoop formats opts files st).st.overwriteAll
      = (st.overwriteAll || hasAllChoice (dirLoop formats opts files st).trace) := by
  induction files generalizing st with
  | nil => simp [dirLoop, hasAllChoice]
  | cons file rest ih =>
    by_cases hb : ((convertImage file formats opts st).exited.isNone
        && !(convertImage file formats opts st).blocked) = true
    · simp only [dirLoop, hb, ite_true]
      simp [hasAllChoice_append, ih (convertImage file formats opts st).st,
        convertImage_mono file formats opts st, Bool.or_assoc]
    · simp only [dirLoop, hb, ite_false]
      exact convertImage_mono file formats opts st

theorem convertLoop_exit_zero (filePath : String) (opts : Options) (formats : List String)
    (st : RunState) (c : Nat) :
    (convertLoop filePath opts formats st).exited = some c → c = 0 := by
  induction formats generalizing st with
  | nil => simp [convertLoop]
  | cons f rest ih =>
    cases hstep : convertFormatStep filePath opts f st with
    | next st' tr =>
      simp only [convertLoop, hstep]
      exact ih st'
    | blocked tr => simp [convertLoop, hstep]
    | abort st' tr =>
      simp only [convertLoop, hstep]
      intro hh
      exact (Option.some_inj.mp hh).symm

theorem convertImage_exit_zero (filePath : String) (formats : List String) (opts : Options)
    (st : RunState) (c : Nat) :
    (convertImage filePath formats opts st).exited = some c → c = 0 := by
  simp only [convertImage]
  exact convertLoop_exit_zero filePath opts formats st c

theorem dirLoop_exit_zero (formats : List String) (opts : Options) (files : List String)
    (st : RunState) (c : Nat) :
    (dirLoop formats opts files st).exited = some c → c = 0 := by
  induction files generalizing st with
  | nil => simp [dirLoop]
  | cons file rest ih =>
    by_cases hb : ((convertImage file formats opts st).exited.isNone
        && !(convertImage file formats opts st).blocked) = true
    · simp only [dirLoop, hb, ite_true]
      exact ih (convertImage file formats opts st).st
    · simp only [dirLoop, hb, ite_false]
      exact convertImage_exit_zero file formats opts st c

/-- The two prompt-driven step outcomes: with `overwriteAll` unset and the
format's output path existing, a `no` answer skips the pair with the file
system untouched, a `quit` answer aborts the process. -/
theorem convertFormatStep_prompt (filePath : String) (opts : Options) (format : String)
    (st : RunState) (ans : String) (rest : List String)
    (h0 : st.overwriteAll = false) (h1 : st.answers = ans :: rest)
    (h2 : fsExists st.fs (stepOutputPath filePath opts format) = true) :
    (promptOverwriteChoice ans = .no →
      convertFormatStep filePath opts format st
        = .next { st with answers := rest }
            [Event.mkdirp (targetDirOf filePath opts),
             Event.prompt (stepOutputPath filePath opts format) .no]) ∧
    (promptOverwriteChoice ans = .quit →
      convertFormatStep filePath opts format st
        = .abort { st with answers := rest }
            [Event.mkdirp (targetDirOf filePath opts),
             Event.prompt (stepOutputPath filePath opts format) .quit,
             Event.logAborted]) := by
  by_cases hf : format = "jpegxl"
  · simp only [stepOutputPath, jxlPathOf, hf, ite_true] at h2 ⊢
    constructor <;> intro hc <;>
      simp [convertFormatStep, hf, checkOverwrite, h0, h1, h2, hc]
  · simp only [stepOutputPath, hf, ite_false] at h2 ⊢
    constructor <;> intro hc <;>
      simp [convertFormatStep, hf, checkOverwrite, h0, h1, h2, hc]

/-! ## The claims -/

/-- C1: the overwrite-`all` flag is process-wide boolean state: false at run
start, it ends true exactly when it began true or some prompt of the run was
answered `all` (so it is set only by an `all` answer and never reset), and
once true every write check is `Allowed` with no prompt issued anywhere in the
rest of the run (which also ends normally, never blocked on a prompt). -/
theorem C1_overwriteAll_lifecycle (dirPath : String) (entries formats : List String)
    (opts : Options) (st : RunState) (p : String) :
    (initialRunState st.fs st.answers st.cjxl).overwriteAll = false ∧
    (convertDirectory dirPath entries formats opts st).st.overwriteAll
      = (st.overwriteAll
          || hasAllChoice (convertDirectory dirPath entries formats opts st).trace) ∧
    (st.overwriteAll = true →
      checkOverwrite p st = .allowed st [] ∧
      promptCount (convertDirectory dirPath entries formats opts st).trace = 0 ∧
      (convertDirectory dirPath entries formats opts st).exited = none ∧
      (convertDirectory dirPath entries formats opts st).blocked = false) := by
  refine ⟨rfl, ?_, fun h => ?_⟩
  · simp only [convertDirectory]
    exact dirLoop_mono formats opts _ st
  · have hd := dirLoop_all formats opts
      (((entries.filter (fun f =>
          imageSrcExts.contains (String.mk (lowerChars (pathExtname f).data)))).map
        (fun file => pathJoin dirPath file))) st h
    exact ⟨checkOverwrite_all p st h,
      by simpa only [convertDirectory] using hd.2.2.2.1,
      by simpa only [convertDirectory] using hd.1,
      by simpa only [convertDirectory] using hd.2.1⟩

theorem C1_overwriteAll_lifecycle_witness :
    promptCount (convertDirectory "d" ["a.png"] ["jpg"] ⟨none, false, .undef, .undef⟩
        ⟨true, [("d/a.jpg", FileData.raw "x")], ["quit"], []⟩).trace = 0 ∧
    (convertDirectory "d" ["a.png"] ["jpg"] ⟨none, false, .undef, .undef⟩
        ⟨true, [("d/a.jpg", FileData.raw "x")], ["quit"], []⟩).exited = none :=
  let h := (C1_overwriteAll_lifecycle "d" ["a.png"] ["jpg"] ⟨none, false, .undef, .undef⟩
        ⟨true, [("d/a.jpg", FileData.raw "x")], ["quit"], []⟩ "d/a.jpg").2.2 rfl
  ⟨h.2.1, h.2.2.1⟩

/-- C2: a `quit` answer at an overwrite prompt terminates the whole run at
once: any `process.exit` a directory run performs carries status 0, and when
the first prompt of a batch is answered `quit` the entire result — state,
trace, graceful exit — is already final: no further target formats of that
file and no later files are processed. -/
theorem C2_quit_aborts_run (dirPath : String) (opts : Options) (file fmt : String)
    (moreFiles restFmts : List String) (st : RunState) (ans : String)
    (restAns : List String)
    (h0 : st.overwriteAll = false) (h1 : st.answers = ans :: restAns)
    (h2 : promptOverwriteChoice ans = .quit)
    (h3 : fsExists st.fs (stepOutputPath file opts fmt) = true) :
    (∀ entries fms c,
        (convertDirectory dirPath entries fms opts st).exited = some c → c = 0) ∧
    dirLoop (fmt :: restFmts) opts (file :: moreFiles) st =
      ⟨{ st with answers := restAns },
       [Event.fileStart file, Event.mkdirp (targetDirOf file opts),
        Event.prompt (stepOutputPath file opts fmt) Choice.quit, Event.logAborted],
       some 0, false⟩ := by
  constructor
  · intro entries fms c
    simp only [convertDirectory]
    exact dirLoop_exit_zero fms opts _ st c
  · have hstep := (convertFormatStep_prompt file opts fmt st ans restAns h0 h1 h3).2 h2
    simp only [dirLoop, convertImage, convertLoop, hstep]
    simp

theorem C2_quit_aborts_run_witness :
    dirLoop ["png"] ⟨none, false, .undef, .undef⟩ ["d/a.png", "d/b.png"]
        ⟨false, [("d/a.png", FileData.raw "old")], ["q"], []⟩ =
      ⟨⟨false, [("d/a.png", FileData.raw "old")], [], []⟩,
       [Event.fileStart "d/a.png", Event.mkdirp "d",
        Event.prompt "d/a.png" Choice.quit, Event.logAborted],
       some 0, false⟩ := by
  have h := (C2_quit_aborts_run "d" ⟨none, false, .undef, .undef⟩ "d/a.png" "png"
      ["d/b.png"] [] ⟨false, [("d/a.png", FileData.raw "old")], ["q"], []⟩ "q" []
      rfl rfl (by decide) (by decide)).2
  exact h.trans (by decide)

/-- C3 counterexample: a formats list holding the unknown token "bogus" next
to "all" is NOT rejected — the `all` branch skips validation entirely, the run
completes with status 0 and output files are written. -/
theorem C3_invalid_formats_counterexample :
    (cliRunFile "img.png" ["bogus", "all"] none false none none [] [] []).exitCode
      = some 0 ∧
    (cliRunFile "img.png" ["bogus", "all"] none false none none [] [] []).isConfigError
      = false ∧
    Event.writeOut "./img.jpg" (FileData.sharpOut "img.png" "jpg" none)
      ∈ (cliRunFile "img.png" ["bogus", "all"] none false none none [] [] []).runTrace := by
  decide

/-- C3 amended: for every invocation whose formats list does NOT contain the
token `all` and contains a token outside the supported set, the action aborts
with exit status 1 before any file I/O, reporting exactly the invalid
tokens. -/
theorem C3_invalid_formats_amended (source : String) (req : List String)
    (out : Option String) (verbose : Bool) (w h : Option String) (fs : FsModel)
    (answers : List String) (cjxl : List CjxlRes)
    (hall : "all" ∉ req)
    (hinv : req.filter (fun f => !SUPPORTED_FORMATS.contains f) ≠ []) :
    cliRunFile source req out verbose w h fs answers cjxl
        = .invalidFormats (req.filter (fun f => !SUPPORTED_FORMATS.contains f)) ∧
    (cliRunFile source req out verbose w h fs answers cjxl).exitCode = some 1 := by
  have hx : ¬ (∀ a ∈ req, a ∈ SUPPORTED_FORMATS) := by
    intro hforall
    apply hinv
    apply List.filter_eq_nil.mpr
    intro a ha
    simp [hforall a ha]
  constructor
  · simp [cliRunFile, hall, hx]
  · simp [cliRunFile, hall, hx, ActionOutcome.exitCode]

theorem C3_invalid_formats_amended_witness :
    cliRunFile "img.png" ["bogus"] none false none none [] [] []
      = .invalidFormats ["bogus"] ∧
    (cliRunFile "img.png" ["bogus"] none false none none [] [] []).exitCode = some 1 := by
  have h := C3_invalid_formats_amended "img.png" ["bogus"] none false none none [] [] []
    (by decide) (by decide)
  exact ⟨h.1.trans (by decide), h.2⟩

/-- C4 counterexample: converting one source to two formats decodes it twice —
once per format — not once: the claim's shared single decode is false. -/
theorem C4_decode_once_counterexample :
    decodeCount (convertImage "img.png" ["jpg", "png"] ⟨none, false, .undef, .undef⟩
        (initialRunState [] [] [])).trace = 2 ∧
    decodeCount (convertImage "img.png" ["jpg", "png"] ⟨none, false, .undef, .undef⟩
        (initialRunState [] [] [])).trace ≠ 1 := by
  decide

/-- C4 amended: the decode-and-transform pipeline is constructed once per
(file, format) pair — in an unobstructed run (overwrite-all state set) the
number of decode operations equals the number of requested formats. -/
theorem C4_decode_per_format (filePath : String) (formats : List String)
    (opts : Options) (st : RunState) (h : st.overwriteAll = true) :
    decodeCount (convertImage filePath formats opts st).trace = formats.length :=
  (convertImage_all filePath formats opts st h).2.2.2.2.1

theorem C4_decode_per_format_witness :
    decodeCount (convertImage "a.png" ["jpg", "png", "webp"]
        ⟨none, false, .undef, .undef⟩ ⟨true, [], [], []⟩).trace = 3 :=
  (C4_decode_per_format "a.png" ["jpg", "png", "webp"] ⟨none, false, .undef, .undef⟩
      ⟨true, [], [], []⟩ rfl).trans (by decide)

/-- C5 counterexample: a requested width of "0" is not a fatal configuration
error — the run proceeds (decode work and file writes happen), completes with
exit status 0 — and a negative width is not a configuration error either. -/
theorem C5_nonpositive_resize_counterexample :
    (cliRunFile "img.png" ["png"] none false (some "0") none [] [] []).exitCode
      = some 0 ∧
    (cliRunFile "img.png" ["png"] none false (some "0") none [] [] []).isConfigError
      = false ∧
    Event.writeOut "./img.png" (FileData.sharpOut "img.png" "png" none)
      ∈ (cliRunFile "img.png" ["png"] none false (some "0") none [] [] []).runTrace ∧
    (cliRunFile "img.png" ["png"] none false (some "-5") none [] [] []).isConfigError
      = false := by
  decide

/-- C5 amended: resize dimensions are never validated up front — whether the
action aborts is independent of the width/height strings (it depends only on
the formats list); a zero dimension parses to the falsy 0, which disables the
resize branch entirely instead of erroring. -/
theorem C5_no_dimension_validation (source : String) (req : List String)
    (out : Option String) (verbose : Bool) (w h w' h' : Option String) (fs : FsModel)
    (answers : List String) (cjxl : List CjxlRes) (srcW srcH : Nat) :
    (cliRunFile source req out verbose w h fs answers cjxl).isConfigError
      = (cliRunFile source req out verbose w' h' fs answers cjxl).isConfigError ∧
    parseDimOption (some "0") = .int 0 ∧
    (JsNum.int 0).truthy = false ∧
    convertResizeDims (.int 0) .undef srcW srcH = (srcW, srcH) := by
  refine ⟨?_, by decide, by decide, by simp [convertResizeDims, JsNum.truthy]⟩
  by_cases hall : "all" ∈ req
  · simp [cliRunFile, hall, ActionOutcome.isConfigError]
  · by_cases hfa : ∀ a ∈ req, a ∈ SUPPORTED_FORMATS
    · simp [cliRunFile, hall, if_pos hfa, ActionOutcome.isConfigError]
    · simp [cliRunFile, hall, if_neg hfa, ActionOutcome.isConfigError]

/-- C6: prompt answers are classified after trimming and lower-casing —
y/yes ↦ yes, n/no ↦ no, a/all ↦ all, q/quit ↦ quit, anything else ↦ no — and
a `no` decision leaves the file system (hence the existing output file's
content) untouched, consumes only that answer, skips exactly that
(file, format) pair, and the loop continues with the remaining target
formats. -/
theorem C6_prompt_classification_and_no (filePath : String) (opts : Options)
    (format : String) (st : RunState) (ans : String) (rest restFmts : List String) :
    (∀ s : String,
      ((normalizeAnswer s = "y" ∨ normalizeAnswer s = "yes") →
          promptOverwriteChoice s = .yes) ∧
      ((normalizeAnswer s = "n" ∨ normalizeAnswer s = "no") →
          promptOverwriteChoice s = .no) ∧
      ((normalizeAnswer s = "a" ∨ normalizeAnswer s = "all") →
          promptOverwriteChoice s = .all) ∧
      ((normalizeAnswer s = "q" ∨ normalizeAnswer s = "quit") →
          promptOverwriteChoice s = .quit) ∧
      (normalizeAnswer s ≠ "y" → normalizeAnswer s ≠ "yes" →
       normalizeAnswer s ≠ "n" → normalizeAnswer s ≠ "no" →
       normalizeAnswer s ≠ "a" → normalizeAnswer s ≠ "all" →
       normalizeAnswer s ≠ "q" → normalizeAnswer s ≠ "quit" →
          promptOverwriteChoice s = .no)) ∧
    (st.overwriteAll = false → st.answers = ans :: rest →
     promptOverwriteChoice ans = .no →
     fsExists st.fs (stepOutputPath filePath opts format) = true →
      convertFormatStep filePath opts format st
        = .next { st with answers := rest }
            [Event.mkdirp (targetDirOf filePath opts),
             Event.prompt (stepOutputPath filePath opts format) .no] ∧
      convertLoop filePath opts (format :: restFmts) st
        = ⟨(convertLoop filePath opts restFmts { st with answers := rest }).st,
           [Event.mkdirp (targetDirOf filePath opts),
            Event.prompt (stepOutputPath filePath opts format) .no]
             ++ (convertLoop filePath opts restFmts { st with answers := rest }).trace,
           (convertLoop filePath opts restFmts { st with answers := rest }).exited,
           (convertLoop filePath opts restFmts { st with answers := rest }).blocked⟩) := by
  constructor
  · intro s
    refine ⟨?_, ?_, ?_, ?_, ?_⟩
    · rintro (h | h) <;> simp [promptOverwriteChoice, h]
    · rintro (h | h) <;> simp [promptOverwriteChoice, h]
    · rintro (h | h) <;> simp [promptOverwriteChoice, h]
    · rintro (h | h) <;> simp [promptOverwriteChoice, h]
    · intro h1 h2 h3 h4 h5 h6 h7 h8
      simp [promptOverwriteChoice, h1, h2, h3, h4, h5, h6, h7, h8]
  · intro h0 h1 hc h2
    have hstep := (convertFormatStep_prompt filePath opts format st ans rest h0 h1 h2).1 hc
    refine ⟨hstep, ?_⟩
    simp only [convertLoop, hstep]

theorem C6_prompt_classification_and_no_witness :
    convertFormatStep "a.png" ⟨none, false, .undef, .undef⟩ "png"
        ⟨false, [("./a.png", FileData.raw "orig")], ["x"], []⟩
      = .next ⟨false, [("./a.png", FileData.raw "orig")], [], []⟩
          [Event.mkdirp ".", Event.prompt "./a.png" Choice.no] := by
  have h := ((C6_prompt_classification_and_no "a.png" ⟨none, false, .undef, .undef⟩ "png"
      ⟨false, [("./a.png", FileData.raw "orig")], ["x"], []⟩ "x" [] []).2
      rfl rfl (by decide) (by decide)).1
  exact h.trans (by decide)

/-- C7: the jpegxl conversion writes the temporary intermediate PNG, spawns
the external encoder and awaits it: on exit code 0 success is reported
(`logCreated`) and the intermediate is unlinked (absent from the resulting
file system); on a non-zero exit or a launch failure only an error is logged
and the intermediate is left in place; in every case the step result is
`next`, so sibling formats and sibling files continue. -/
theorem C7_jpegxl_external (file : String) (opts : Options) (st : RunState)
    (h : st.overwriteAll = true) :
    (∀ cs, st.cjxl = CjxlRes.exited 0 :: cs →
      convertFormatStep file opts "jpegxl" st
        = .next { st with
                  fs := fsDelete (fsWrite (fsWrite st.fs (tempPathOf file opts)
                            (sharpDataOf file opts "png")) (jxlPathOf file opts)
                            (.cjxlOut (tempPathOf file opts))) (tempPathOf file opts),
                  cjxl := cs }
            [Event.mkdirp (targetDirOf file opts), Event.sharpDecode file,
             Event.writeOut (tempPathOf file opts) (sharpDataOf file opts "png"),
             Event.spawnCjxl (tempPathOf file opts) (jxlPathOf file opts),
             Event.unlink (tempPathOf file opts),
             Event.logCreated (jxlPathOf file opts)] ∧
      fsExists (fsDelete (fsWrite (fsWrite st.fs (tempPathOf file opts)
          (sharpDataOf file opts "png")) (jxlPathOf file opts)
          (.cjxlOut (tempPathOf file opts))) (tempPathOf file opts))
        (tempPathOf file opts) = false) ∧
    (∀ c cs, c ≠ 0 → st.cjxl = CjxlRes.exited c :: cs →
      convertFormatStep file opts "jpegxl" st
        = .next { st with
                  fs := fsWrite st.fs (tempPathOf file opts) (sharpDataOf file opts "png"),
                  cjxl := cs }
            [Event.mkdirp (targetDirOf file opts), Event.sharpDecode file,
             Event.writeOut (tempPathOf file opts) (sharpDataOf file opts "png"),
             Event.spawnCjxl (tempPathOf file opts) (jxlPathOf file opts),
             Event.logError ("Failed to convert to jpegxl: cjxl exited with code "
               ++ toString c)] ∧
      fsExists (fsWrite st.fs (tempPathOf file opts) (sharpDataOf file opts "png"))
        (tempPathOf file opts) = true) ∧
    (∀ msg cs, st.cjxl = CjxlRes.launchErr msg :: cs →
      convertFormatStep file opts "jpegxl" st
        = .next { st with
                  fs := fsWrite st.fs (tempPathOf file opts) (sharpDataOf file opts "png"),
                  cjxl := cs }
            [Event.mkdirp (targetDirOf file opts), Event.sharpDecode file,
             Event.writeOut (tempPathOf file opts) (sharpDataOf file opts "png"),
             Event.spawnCjxl (tempPathOf file opts) (jxlPathOf file opts),
             Event.logError ("Failed to convert to jpegxl: cjxl error: " ++ msg)]) := by
  refine ⟨fun cs hcs => ?_, fun c cs hc hcs => ?_, fun msg cs hcs => ?_⟩
  · refine ⟨?_, fsExists_fsDelete_self _ _⟩
    simp [convertFormatStep, checkOverwrite_all _ _ h, hcs, cjxlNext, tempPathOf,
      jxlPathOf]
  · refine ⟨?_, fsExists_fsWrite_self _ _ _⟩
    simp [convertFormatStep, checkOverwrite_all _ _ h, hcs, cjxlNext, hc, tempPathOf,
      jxlPathOf]
  · simp [convertFormatStep, checkOverwrite_all _ _ h, hcs, cjxlNext, tempPathOf,
      jxlPathOf]

theorem C7_jpegxl_external_witness :
    convertFormatStep "a.png" ⟨none, false, .undef, .undef⟩ "jpegxl"
        ⟨true, [], [], [CjxlRes.exited 0]⟩
      = .next ⟨true, [("./a.jxl", FileData.cjxlOut "./a.temp.png")], [], []⟩
          [Event.mkdirp ".", Event.sharpDecode "a.png",
           Event.writeOut "./a.temp.png" (FileData.sharpOut "a.png" "png" none),
           Event.spawnCjxl "./a.temp.png" "./a.jxl",
           Event.unlink "./a.temp.png", Event.logCreated "./a.jxl"] := by
  have h := ((C7_jpegxl_external "a.png" ⟨none, false, .undef, .undef⟩
      ⟨true, [], [], [CjxlRes.exited 0]⟩ rfl).1 [] rfl).1
  exact h.trans (by decide)

/-- C8: the repository's own test suite expects `--no-enlargement` to clamp an
oversized target width to the source width, but the program declares no such
option flag, and its resize call passes no options object, leaving sharp's
`withoutEnlargement` at its default `false`: a 200-pixel target on a 100×50
source yields output width 200 (upscaled), where the claimed clamping
behavior (`withoutEnlargement` true) would yield 100. -/
theorem C8_no_enlargement_missing :
    programOptionFlags.all
        (fun f => !(charsContain ("--no-enlargement".data) f.data)) = true ∧
    convertResizeDims (.int 200) .undef 100 50 = (200, 100) ∧
    sharpResizeDims (some 200) none true 100 50 = (100, 50) := by
  decide

/-- C9: a directory run takes the entry listing once, selects exactly the
entries whose lower-cased extension is in the fixed allow-list (in listing
order, everything else ignored), and processes them strictly sequentially:
the run trace is the concatenation of each selected file's complete trace
with the state threaded from one file to the next. -/
theorem C9_directory_scheduling (dirPath : String) (entries formats : List String)
    (opts : Options) (st : RunState) (h : st.overwriteAll = true) :
    fileStarts (convertDirectory dirPath entries formats opts st).trace
      = ((entries.filter (fun f =>
            imageSrcExts.contains (String.mk (lowerChars (pathExtname f).data)))).map
          (fun file => pathJoin dirPath file)) ∧
    (convertDirectory dirPath entries formats opts st).trace
      = seqFileTraces formats opts
          ((entries.filter (fun f =>
              imageSrcExts.contains (String.mk (lowerChars (pathExtname f).data)))).map
            (fun file => pathJoin dirPath file)) st := by
  have hd := dirLoop_all formats opts
    ((entries.filter (fun f =>
        imageSrcExts.contains (String.mk (lowerChars (pathExtname f).data)))).map
      (fun file => pathJoin dirPath file)) st h
  exact ⟨by simpa only [convertDirectory] using hd.2.2.2.2.1,
         by simpa only [convertDirectory] using hd.2.2.2.2.2⟩

theorem C9_directory_scheduling_witness :
    fileStarts (convertDirectory "d" ["a.PNG", "b.txt", "c.jpeg", "n.png.bak"] ["jpg"]
        ⟨none, false, .undef, .undef⟩ ⟨true, [], [], []⟩).trace
      = ["d/a.PNG", "d/c.jpeg"] := by
  have h := (C9_directory_scheduling "d" ["a.PNG", "b.txt", "c.jpeg", "n.png.bak"]
      ["jpg"] ⟨none, false, .undef, .undef⟩ ⟨true, [], [], []⟩ rfl).1
  exact h.trans (by decide)

/-- C10: the jpegxl overwrite check consults only the final `.jxl` path: when
no file exists there, no prompt is issued at all — even in the Fresh
(`overwriteAll` unset) state with a file already present at the intermediate
`<base>.temp.png` path — and the step writes the intermediate PNG, replacing
that existing file without asking. -/
theorem C10_temp_png_unguarded (file : String) (opts : Options) (st : RunState)
    (d : FileData)
    (h1 : fsExists st.fs (jxlPathOf file opts) = false)
    (h2 : fsLookup st.fs (tempPathOf file opts) = some d) :
    ∃ st' tr, convertFormatStep file opts "jpegxl" st = .next st' tr ∧
      promptCount tr = 0 ∧
      Event.writeOut (tempPathOf file opts) (sharpDataOf file opts "png") ∈ tr ∧
      fsLookup (fsWrite st.fs (tempPathOf file opts) (sharpDataOf file opts "png"))
        (tempPathOf file opts) = some (sharpDataOf file opts "png") := by
  have hg : checkOverwrite (outputBaseOf file opts ++ ".jxl") st = .allowed st [] := by
    apply checkOverwrite_absent
    simpa only [jxlPathOf] using h1
  rcases hr : cjxlNext st.cjxl with ⟨r, cs⟩
  cases r with
  | exited c =>
    by_cases hc : c = 0
    · simp only [convertFormatStep, ite_true, hg, hr, hc, if_pos]
      exact ⟨_, _, rfl, by
        simp [promptCount, isPromptEvent, tempPathOf, sharpDataOf, fsLookup_fsWrite_self]⟩
    · simp only [convertFormatStep, ite_true, hg, hr, if_neg hc]
      exact ⟨_, _, rfl, by
        simp [promptCount, isPromptEvent, tempPathOf, sharpDataOf, fsLookup_fsWrite_self]⟩
  | launchErr msg =>
    simp only [convertFormatStep, ite_true, hg, hr]
    exact ⟨_, _, rfl, by
      simp [promptCount, isPromptEvent, tempPathOf, sharpDataOf, fsLookup_fsWrite_self]⟩

theorem C10_temp_png_unguarded_witness :
    ∃ st' tr,
      convertFormatStep "a.png" ⟨none, false, .undef, .undef⟩ "jpegxl"
          ⟨false, [("./a.temp.png", FileData.raw "stale")], [], [CjxlRes.exited 1]⟩
        = .next st' tr ∧
      promptCount tr = 0 ∧
      Event.writeOut (tempPathOf "a.png" ⟨none, false, .undef, .undef⟩)
          (sharpDataOf "a.png" ⟨none, false, .undef, .undef⟩ "png") ∈ tr ∧
      fsLookup (fsWrite [("./a.temp.png", FileData.raw "stale")]
          (tempPathOf "a.png" ⟨none, false, .undef, .undef⟩)
          (sharpDataOf "a.png" ⟨none, false, .undef, .undef⟩ "png"))
        (tempPathOf "a.png" ⟨none, false, .undef, .undef⟩)
        = some (sharpDataOf "a.png" ⟨none, false, .undef, .undef⟩ "png") :=
  C10_temp_png_unguarded "a.png" ⟨none, false, .undef, .undef⟩
    ⟨false, [("./a.temp.png", FileData.raw "stale")], [], [CjxlRes.exited 1]⟩
    (FileData.raw "stale") (by decide) (by decide)
